import Mathlib

/-!
Shallow embedding of the kizuna lip-sync subsystem
(`src/services/LipSyncService.ts`) and of the model-renderer registry
(`src/renderers/*`), with theorems checking the specification's claims.

Numbers that are JS `number`s are modelled as rationals (`ℚ`); the values
involved in every claim are exact small rationals.  `Math.random()` draws
are modelled by an explicit stream of values `Nat → Fin 5` (one potential
draw per character position).  External effects on the registered render
target are modelled as an emitted list of calls.
-/

namespace Kizuna

/-- The five-vowel phoneme system of `LipSyncService.ts` (`type Phoneme`). -/
inductive Phoneme
  | A | E | I | O | U | N | closed
deriving DecidableEq, Repr

/-- `interface LipFrame` — one mouth-shape frame. -/
structure LipFrame where
  phoneme : Phoneme
  weight : ℚ
  duration : ℚ
deriving DecidableEq, Repr

/-- `interface LipSyncConfig`. -/
structure LipSyncConfig where
  charDuration : ℚ
  transitionDuration : ℚ
  speakingWeight : ℚ
  enabled : Bool
deriving DecidableEq, Repr

/-- `DEFAULT_CONFIG` from the source. -/
def DEFAULT_CONFIG : LipSyncConfig :=
  { charDuration := 80, transitionDuration := 50, speakingWeight := 7/10, enabled := true }

/-- The JS regex whitespace class `\s`. -/
def jsWhitespace (c : Char) : Bool :=
  c.toNat ∈ [0x9, 0xA, 0xB, 0xC, 0xD, 0x20, 0xA0, 0x1680,
             0x2028, 0x2029, 0x202F, 0x205F, 0x3000, 0xFEFF]
  || (0x2000 ≤ c.toNat && c.toNat ≤ 0x200A)

/-- The punctuation/whitespace character class tested in `getPhonemeForChar`
(fullwidth ，。！？、；： quotes （） plus ASCII `,.!?;:()"` `'` and `\s`). -/
def punctClass (c : Char) : Bool :=
  c.toNat ∈ [0xFF0C, 0x3002, 0xFF01, 0xFF1F, 0x3001, 0xFF1B, 0xFF1A,
             0x22, 0x27, 0xFF08, 0xFF09,
             0x2C, 0x2E, 0x21, 0x3F, 0x3B, 0x3A, 0x28, 0x29]
  || jsWhitespace c

/-- JS `char.charCodeAt(0)`: for an astral code point this is the leading
surrogate of its UTF-16 encoding, otherwise the code point itself. -/
def jsCharCodeAt0 (c : Char) : Nat :=
  if c.toNat < 0x10000 then c.toNat else 0xD800 + (c.toNat - 0x10000) / 0x400

/-- `"aeiou".includes(lower)` combined with the `as Phoneme` upcast. -/
def vowelOfLower (c : Char) : Option Phoneme :=
  if c = 'a' then some .A
  else if c = 'e' then some .E
  else if c = 'i' then some .I
  else if c = 'o' then some .O
  else if c = 'u' then some .U
  else none

/-- `["A","E","I","O","U"][Math.floor(Math.random() * 5)]` — the random draw
is the explicit argument `r`. -/
def randomVowel (r : Fin 5) : Phoneme :=
  if r.val = 0 then .A
  else if r.val = 1 then .E
  else if r.val = 2 then .I
  else if r.val = 3 then .O
  else .U

/-- `getPhonemeForChar` from the source.  The JS expression
`(code * 7 + code >> 3) % 100` parses as `((code * 7 + code) >> 3) % 100`. -/
def getPhonemeForChar (r : Fin 5) (c : Char) : Phoneme :=
  let code := jsCharCodeAt0 c
  if code < 0x4E00 || 0x9FFF < code then
    if punctClass c then .closed
    else
      match vowelOfLower c.toLower with
      | some p => p
      | none => randomVowel r
  else
    let hash := (code * 7 + code) / 2 ^ 3 % 100
    if hash < 25 then .A
    else if hash < 45 then .I
    else if hash < 60 then .E
    else if hash < 75 then .O
    else if hash < 90 then .U
    else .N

/-- Weight given to a fresh frame in `textToFrames`. -/
def frameWeight (cfg : LipSyncConfig) (p : Phoneme) : ℚ :=
  if p = .closed ∨ p = .N then 1/10 else cfg.speakingWeight

/-- Loop body of `textToFrames`.  The frame list under construction is kept
in reverse order, so the source's `frames[frames.length - 1]` is the head of
the accumulator; `rand i` is the random value available to the character at
position `i`. -/
def textToFramesGo (cfg : LipSyncConfig) (rand : Nat → Fin 5) :
    List Char → Nat → List LipFrame → List LipFrame
  | [], _, acc => acc.reverse
  | c :: rest, i, acc =>
    let p := getPhonemeForChar (rand i) c
    match acc with
    | lf :: tl =>
      if lf.phoneme = p then
        textToFramesGo cfg rand rest (i + 1)
          ({ lf with duration := lf.duration + cfg.charDuration } :: tl)
      else
        textToFramesGo cfg rand rest (i + 1)
          (⟨p, frameWeight cfg p, cfg.charDuration⟩ :: lf :: tl)
    | [] =>
      textToFramesGo cfg rand rest (i + 1) [⟨p, frameWeight cfg p, cfg.charDuration⟩]

/-- `LipSyncController.textToFrames` (the text as a list of code points,
which is what `for (const char of text)` iterates). -/
def textToFrames (cfg : LipSyncConfig) (rand : Nat → Fin 5) (text : List Char) :
    List LipFrame :=
  textToFramesGo cfg rand text 0 []

/-- The phoneme chosen for each character position of a text. -/
def phonemeList (rand : Nat → Fin 5) : List Char → Nat → List Phoneme
  | [], _ => []
  | c :: rest, i => getPhonemeForChar (rand i) c :: phonemeList rand rest (i + 1)

/-- The merging loop of `textToFrames`, factored through the phoneme list. -/
def mergeGo (cfg : LipSyncConfig) : List Phoneme → List LipFrame → List LipFrame
  | [], acc => acc.reverse
  | p :: rest, lf :: tl =>
    if lf.phoneme = p then
      mergeGo cfg rest ({ lf with duration := lf.duration + cfg.charDuration } :: tl)
    else
      mergeGo cfg rest (⟨p, frameWeight cfg p, cfg.charDuration⟩ :: lf :: tl)
  | p :: rest, [] => mergeGo cfg rest [⟨p, frameWeight cfg p, cfg.charDuration⟩]

/-- Specification shape for claim C5: one frame per maximal run of equal
phonemes, whose duration is the run length times `charDuration`. -/
def runFrames (cfg : LipSyncConfig) : List Phoneme → List LipFrame
  | [] => []
  | p :: rest =>
    ⟨p, frameWeight cfg p,
      (1 + ((rest.takeWhile (fun q => q = p)).length : ℚ)) * cfg.charDuration⟩
      :: runFrames cfg (rest.dropWhile (fun q => q = p))
termination_by l => l.length
decreasing_by
  simp only [List.length_cons]
  exact Nat.lt_succ_of_le (List.dropWhile_suffix _).sublist.length_le

/-- JS `String.prototype.toUpperCase` restricted to ASCII (sufficient for
every string compared against it in the source). -/
def jsToUpper (s : String) : String := String.mk (s.data.map Char.toUpper)

/-- Loop body of `phonemesToFrames`: classify one phoneme string and build
its frame. -/
def phonemeToFrame (cfg : LipSyncConfig) (avgDuration : ℚ)
    (phonemeStr : String) : LipFrame :=
  if jsToUpper phonemeStr = "CLOSED" ∨ phonemeStr = "closed" then
    ⟨.closed, 1/10, avgDuration⟩
  else if jsToUpper phonemeStr = "N" then
    ⟨.N, 1/10, avgDuration⟩
  else if jsToUpper phonemeStr = "A" then ⟨.A, cfg.speakingWeight, avgDuration⟩
  else if jsToUpper phonemeStr = "E" then ⟨.E, cfg.speakingWeight, avgDuration⟩
  else if jsToUpper phonemeStr = "I" then ⟨.I, cfg.speakingWeight, avgDuration⟩
  else if jsToUpper phonemeStr = "O" then ⟨.O, cfg.speakingWeight, avgDuration⟩
  else if jsToUpper phonemeStr = "U" then ⟨.U, cfg.speakingWeight, avgDuration⟩
  else ⟨.A, cfg.speakingWeight, avgDuration⟩

/-- `LipSyncController.phonemesToFrames`: backend phonemes to frames. -/
def phonemesToFrames (cfg : LipSyncConfig) (phonemes : List String)
    (textLength : Nat) : List LipFrame :=
  phonemes.map (phonemeToFrame cfg
    (max cfg.charDuration ((textLength * cfg.charDuration) / (phonemes.length : ℚ))))

/-- A call made on a registered `LipSyncTarget`; the first component of the
emitted pair identifies the target instance the call was made on. -/
inductive TargetCall
  | setMouth (p : Phoneme) (w : ℚ)
  | resetMouth
deriving DecidableEq, Repr

/-- The controller fields of `class LipSyncController`.  `hasTimer` models
`animationTimer !== null`; times are the values returned by `Date.now()` /
`performance.now()`, passed in explicitly. -/
structure ControllerState (T : Type) where
  target : Option T
  config : LipSyncConfig
  queue : List LipFrame
  isPlaying : Bool
  hasTimer : Bool
  lastChunkTime : ℚ
deriving DecidableEq, Repr

/-- Field initialisers of `LipSyncController`. -/
def initialState (T : Type) : ControllerState T :=
  { target := none, config := DEFAULT_CONFIG, queue := [], isPlaying := false,
    hasTimer := false, lastChunkTime := 0 }

/-- `LipSyncController.stop`. -/
def stopOp {T : Type} (s : ControllerState T) :
    ControllerState T × List (T × TargetCall) :=
  let s1 := { s with isPlaying := false, hasTimer := false, queue := [] }
  match s.target with
  | some t => (s1, [(t, .resetMouth)])
  | none => (s1, [])

/-- `LipSyncController.setTarget`.  Note the source assigns `this.target`
first and only then calls `stop()`, which reads the new `this.target`. -/
def setTargetOp {T : Type} (s : ControllerState T) (tgt : Option T) :
    ControllerState T × List (T × TargetCall) :=
  let s1 := { s with target := tgt }
  match tgt with
  | none => stopOp s1
  | some _ => (s1, [])

/-- `LipSyncController.startPlayback` as far as controller state goes (the
animation closure itself is modelled by `animate` below). -/
def startPlayback {T : Type} (s : ControllerState T) : ControllerState T :=
  if s.isPlaying then s else { s with isPlaying := true, hasTimer := true }

/-- `LipSyncController.processChunk`; `now` is the `Date.now()` reading. -/
def processChunk {T : Type} (now : ℚ) (rand : Nat → Fin 5) (content : List Char)
    (s : ControllerState T) : ControllerState T × List (T × TargetCall) :=
  if s.config.enabled = false then (s, [])
  else
    match s.target with
    | none => (s, [])
    | some _ =>
      let s1 := { s with lastChunkTime := now }
      let frames := textToFrames s1.config rand content
      let s2 := { s1 with queue := s1.queue ++ frames }
      if s2.isPlaying then (s2, []) else (startPlayback s2, [])

/-- `LipSyncController.processChunkWithPhonemes`. -/
def processChunkWithPhonemes {T : Type} (now : ℚ) (rand : Nat → Fin 5)
    (content : List Char) (phonemes : Option (List String))
    (s : ControllerState T) : ControllerState T × List (T × TargetCall) :=
  if s.config.enabled = false then (s, [])
  else
    match s.target with
    | none => (s, [])
    | some _ =>
      let s1 := { s with lastChunkTime := now }
      let frames :=
        match phonemes with
        | some ps =>
          if 0 < ps.length then phonemesToFrames s1.config ps content.length
          else textToFrames s1.config rand content
        | none => textToFrames s1.config rand content
      let s2 := { s1 with queue := s1.queue ++ frames }
      if s2.isPlaying then (s2, []) else (startPlayback s2, [])

/-- `LipSyncController.onComplete` — appends the closing frame. -/
def onComplete {T : Type} (s : ControllerState T) :
    ControllerState T × List (T × TargetCall) :=
  ({ s with queue :=
      s.queue ++ [⟨.closed, 0, s.config.transitionDuration * 2⟩] }, [])

/-- The local variables of the `animate` closure in `startPlayback`. -/
structure LoopState where
  lastTime : ℚ
  frameTimeRemaining : ℚ
  currentFrame : Option LipFrame
deriving DecidableEq, Repr

/-- `LipSyncController.easeInOut`. -/
def easeInOut (t : ℚ) : ℚ :=
  if t < 1/2 then 2 * t * t else 1 - (-2 * t + 2) ^ 2 / 2

/-- `Math.max(0, Math.min(1, w))`. -/
def clamp01 (w : ℚ) : ℚ := max 0 (min 1 w)

/-- `LipSyncController.applyMouthShape` — the emitted call, if any. -/
def applyMouthShape {T : Type} (tgt : Option T) (p : Phoneme) (w : ℚ) :
    List (T × TargetCall) :=
  match tgt with
  | none => []
  | some t => [(t, .setMouth p (clamp01 w))]

/-- Result of one tick of the `animate` closure: updated controller state,
updated loop-local state, the calls made on the target, and whether
`requestAnimationFrame` was called again. -/
structure AnimStep (T : Type) where
  ctrl : ControllerState T
  loop : LoopState
  calls : List (T × TargetCall)
  scheduled : Bool
deriving DecidableEq, Repr

/-- The "消费当前帧时间" block of the `animate` closure: consume elapsed
time from the current frame and apply the eased, clamped mouth weight. -/
def consumeFrame {T : Type} (tgt : Option T) (deltaTime : ℚ) (ls1 : LoopState) :
    LoopState × List (T × TargetCall) :=
  match ls1.currentFrame with
  | some cf =>
    let rem := ls1.frameTimeRemaining - deltaTime
    let progress := 1 - rem / cf.duration
    let easedWeight := easeInOut progress * cf.weight
    ({ ls1 with frameTimeRemaining := rem },
     applyMouthShape tgt cf.phoneme easedWeight)
  | none => (ls1, [])

/-- The "切换到下一帧" block of the `animate` closure: dequeue the next frame
when the current one is exhausted, or end/keep-alive on an empty queue
depending on the 500 ms grace window. -/
def switchFrame {T : Type} (dateNow : ℚ) (s : ControllerState T)
    (ls2 : LoopState) (calls1 : List (T × TargetCall)) : AnimStep T :=
  if ls2.frameTimeRemaining ≤ 0 then
    match s.queue with
    | next :: restQueue =>
      ⟨{ s with queue := restQueue, hasTimer := true },
       { ls2 with currentFrame := some next, frameTimeRemaining := next.duration },
       calls1, true⟩
    | [] =>
      let ls3 := { ls2 with currentFrame := none }
      let timeSinceLastChunk := dateNow - s.lastChunkTime
      if 500 < timeSinceLastChunk then
        ⟨{ s with isPlaying := false }, ls3,
         calls1 ++ (match s.target with
                    | some t => [(t, .resetMouth)]
                    | none => []),
         false⟩
      else
        ⟨{ s with hasTimer := true }, ls3, calls1, true⟩
  else
    ⟨{ s with hasTimer := true }, ls2, calls1, true⟩

/-- One tick of the `animate` closure of `startPlayback`.  `time` is the
`performance.now()` timestamp handed to the callback, `dateNow` the
`Date.now()` reading used for the grace-window check. -/
def animate {T : Type} (time dateNow : ℚ) (s : ControllerState T)
    (ls : LoopState) : AnimStep T :=
  if s.isPlaying = false then ⟨s, ls, [], false⟩
  else
    switchFrame dateNow s
      (consumeFrame s.target (time - ls.lastTime) { ls with lastTime := time }).1
      (consumeFrame s.target (time - ls.lastTime) { ls with lastTime := time }).2

/-- Does `needle` occur at the start of `hay`? (list form of JS
`String.prototype.startsWith`). -/
def leadsWith : List Char → List Char → Bool
  | [], _ => true
  | _ :: _, [] => false
  | a :: as, b :: bs => a = b && leadsWith as bs

/-- JS `hay.endsWith(needle)`. -/
def jsEndsWith (hay needle : String) : Bool :=
  leadsWith needle.data.reverse hay.data.reverse

/-- JS `hay.includes(needle)` (substring containment). -/
def containsSeq (needle : List Char) : List Char → Bool
  | [] => leadsWith needle []
  | hay@(_ :: rest) => leadsWith needle hay || containsSeq needle rest

/-- JS `hay.includes(needle)` on strings. -/
def jsIncludes (hay needle : String) : Bool := containsSeq needle.data hay.data

/-- JS `String.prototype.toLowerCase` restricted to ASCII (sufficient for
every string the adapters and factories compare). -/
def toLowerStr (s : String) : String := String.mk (s.data.map Char.toLower)

/-- The renderer factories registered by `createDefaultRendererRegistry`. -/
inductive FactoryKind
  | live2d | vrm | gltf | fbx | mmd
deriving DecidableEq, Repr

/-- `Live2DRendererFactory.canHandle`. -/
def live2dCanHandle (modelPath : String) : Bool :=
  jsEndsWith modelPath ".model.json" || jsEndsWith modelPath ".model3.json"

/-- `VRMRendererFactory.canHandle` — extension test only. -/
def vrmCanHandle (modelPath : String) : Bool :=
  jsEndsWith modelPath ".vrm" || jsEndsWith modelPath ".glb"

/-- `GLTFRendererFactory.canHandle`. -/
def gltfCanHandle (modelPath : String) : Bool :=
  let lower := toLowerStr modelPath
  if jsEndsWith lower ".vrm" then false
  else jsEndsWith lower ".gltf" || jsEndsWith lower ".glb"

/-- `FBXRendererFactory.canHandle`. -/
def fbxCanHandle (modelPath : String) : Bool :=
  jsEndsWith (toLowerStr modelPath) ".fbx"

/-- `MMDRendererFactory.canHandle`. -/
def mmdCanHandle (modelPath : String) : Bool :=
  let lower := toLowerStr modelPath
  jsEndsWith lower ".pmd" || jsEndsWith lower ".pmx"

/-- Dispatch `canHandle` over the factory kinds. -/
def canHandleOf : FactoryKind → String → Bool
  | .live2d, p => live2dCanHandle p
  | .vrm, p => vrmCanHandle p
  | .gltf, p => gltfCanHandle p
  | .fbx, p => fbxCanHandle p
  | .mmd, p => mmdCanHandle p

/-- Registration order of `createDefaultRendererRegistry` (the comment in
the source: "注册顺序很重要：VRM 优先于 GLTF"). -/
def defaultRegistry : List FactoryKind := [.live2d, .vrm, .gltf, .fbx, .mmd]

/-- `RendererRegistry.getFactory` — first registered factory whose
`canHandle` accepts the path. -/
def getFactory (factories : List FactoryKind) (modelPath : String) :
    Option FactoryKind :=
  factories.find? fun f => canHandleOf f modelPath

/-- A model file: its path together with whether its binary content embeds
VRM extension markers.  The registry's dispatch receives only the path. -/
structure ModelFile where
  path : String
  hasVRMExtensionMarkers : Bool
deriving DecidableEq, Repr

/-- Resolution of a model file by the default registry: only
`ModelFile.path` is consulted, the content is never inspected. -/
def resolveFactory (f : ModelFile) : Option FactoryKind :=
  getFactory defaultRegistry f.path

/-- `VRM_MOUTH_SHAPES` candidate lists. -/
def vrmCandidates : Phoneme → List String
  | .A => ["aa", "a", "mouth_a", "vrc.v_aa", "fcl_mth_a"]
  | .E => ["ee", "e", "mouth_e", "vrc.v_ee", "fcl_mth_e"]
  | .I => ["ih", "i", "mouth_i", "vrc.v_ih", "fcl_mth_i"]
  | .O => ["oh", "o", "mouth_o", "vrc.v_oh", "fcl_mth_o"]
  | .U => ["ou", "u", "mouth_u", "vrc.v_ou", "fcl_mth_u"]
  | .N => ["nn", "n"]
  | .closed => []

/-- `MMD_MOUTH_SHAPES` candidate lists. -/
def mmdCandidates : Phoneme → List String
  | .A => ["あ", "a"]
  | .E => ["え", "e"]
  | .I => ["い", "i"]
  | .O => ["お", "o"]
  | .U => ["う", "u"]
  | .N => ["ん", "n"]
  | .closed => []

/-- Candidate loop of `findShape` in `createVRMLipSyncAdapter`. -/
def findShapeGo (avail lowerExpressions : List String) :
    List String → Option String
  | [] => none
  | candidate :: rest =>
    match lowerExpressions.findIdx? (fun e => e = candidate || jsIncludes e candidate) with
    | some index => avail.get? index
    | none => findShapeGo avail lowerExpressions rest

/-- `findShape` of `createVRMLipSyncAdapter`: first candidate name matched
(by equality or containment) against the lowercased expression list. -/
def findShape (avail : List String) (p : Phoneme) : Option String :=
  findShapeGo avail (avail.map toLowerStr) (vrmCandidates p)

/-- The precomputed `shapeMap` of the VRM adapter.  The source's loop over
`["A","E","I","O","U","N"]` stores `findShape p` when found; since
`findShape .closed` has no candidates this equals `findShape` itself. -/
def shapeMapOf (avail : List String) : Phoneme → Option String :=
  fun p => findShape avail p

/-- State of a VRM lip-sync adapter: the expression weights of the model
(as set through `setExpression`) and the closure variable `lastPhoneme`. -/
structure VRMState where
  weights : String → ℚ
  lastPhoneme : Phoneme

/-- The "重置上一个口型" block shared by both VRM adapter methods: zero the
expression of the tracked last phoneme, when it maps to a shape. -/
def vrmZeroLast (shapeMap : Phoneme → Option String) (st : VRMState) : VRMState :=
  match shapeMap st.lastPhoneme with
  | some lastShape => { st with weights := Function.update st.weights lastShape 0 }
  | none => st

/-- `setMouthShape` of `createVRMLipSyncAdapter`, parametric in the
precomputed shape map. -/
def vrmSetMouthShape (shapeMap : Phoneme → Option String) (p : Phoneme)
    (w : ℚ) (st : VRMState) : VRMState :=
  let st1 :=
    if st.lastPhoneme ≠ p ∧ st.lastPhoneme ≠ .closed then vrmZeroLast shapeMap st
    else st
  let st2 :=
    match shapeMap p with
    | some shape => { st1 with weights := Function.update st1.weights shape w }
    | none => st1
  { st2 with lastPhoneme := p }

/-- `resetMouth` of `createVRMLipSyncAdapter`. -/
def vrmResetMouth (shapeMap : Phoneme → Option String) (st : VRMState) :
    VRMState :=
  { (if st.lastPhoneme ≠ .closed then vrmZeroLast shapeMap st else st) with
    lastPhoneme := .closed }

/-- State of an MMD lip-sync adapter: the `morphTargetInfluences` array and
the closure variable `lastIndex` (`-1` when none). -/
structure MMDState where
  influences : List ℚ
  lastIndex : Int
deriving DecidableEq, Repr

/-- `influences[i] !== undefined` for an `Int` index. -/
def influDefined (st : MMDState) (i : Int) : Bool :=
  0 ≤ i && i < (st.influences.length : Int)

/-- `findMorphIndex` of `createMMDLipSyncAdapter`: first candidate present
in `morphTargetDictionary`, else `-1`. -/
def findMorphIndex (dict : String → Option Nat) : List String → Int
  | [] => -1
  | name :: rest =>
    match dict name with
    | some i => (i : Int)
    | none => findMorphIndex dict rest

/-- The "重置上一个" block shared by both MMD adapter methods: zero the
influence at the tracked last index, when it is a defined array slot. -/
def mmdZeroLast (st : MMDState) : MMDState :=
  if st.lastIndex ≠ -1 ∧ influDefined st st.lastIndex then
    { st with influences := st.influences.set st.lastIndex.toNat 0 }
  else st

/-- `setMouthShape` of `createMMDLipSyncAdapter`. -/
def mmdSetMouthShape (dict : String → Option Nat) (p : Phoneme) (w : ℚ)
    (st : MMDState) : MMDState :=
  let st1 := mmdZeroLast st
  let index := findMorphIndex dict (mmdCandidates p)
  if index ≠ -1 ∧ influDefined st1 index then
    { st1 with influences := st1.influences.set index.toNat w, lastIndex := index }
  else st1

/-- `resetMouth` of `createMMDLipSyncAdapter`. -/
def mmdResetMouth (st : MMDState) : MMDState :=
  { mmdZeroLast st with lastIndex := -1 }

/-- A call on a `LipSyncTarget` adapter. -/
inductive MouthOp
  | set (p : Phoneme) (w : ℚ)
  | reset
deriving DecidableEq, Repr

/-- Run a sequence of adapter calls on a VRM adapter. -/
def vrmRun (shapeMap : Phoneme → Option String) (ops : List MouthOp)
    (st : VRMState) : VRMState :=
  ops.foldl (fun s op =>
    match op with
    | .set p w => vrmSetMouthShape shapeMap p w s
    | .reset => vrmResetMouth shapeMap s) st

/-- Run a sequence of adapter calls on an MMD adapter. -/
def mmdRun (dict : String → Option Nat) (ops : List MouthOp)
    (st : MMDState) : MMDState :=
  ops.foldl (fun s op =>
    match op with
    | .set p w => mmdSetMouthShape dict p w s
    | .reset => mmdResetMouth s) st

/-- All phoneme values. -/
def allPhonemes : List Phoneme := [.A, .E, .I, .O, .U, .N, .closed]

/-- The expression names a VRM adapter controls (range of its shape map). -/
def vrmControlled (shapeMap : Phoneme → Option String) (name : String) : Prop :=
  ∃ p, shapeMap p = some name

/-- The morph indices an MMD adapter controls (values `findMorphIndex` can
resolve a phoneme to). -/
def mmdControlled (dict : String → Option Nat) (i : Nat) : Prop :=
  ∃ p, findMorphIndex dict (mmdCandidates p) = (i : Int)

/-- At most one of the expressions controlled by the VRM adapter carries a
nonzero weight. -/
def vrmAtMostOne (shapeMap : Phoneme → Option String) (st : VRMState) : Prop :=
  ∀ n1 n2, vrmControlled shapeMap n1 → vrmControlled shapeMap n2 →
    st.weights n1 ≠ 0 → st.weights n2 ≠ 0 → n1 = n2

/-- At most one of the morph influences controlled by the MMD adapter is
nonzero. -/
def mmdAtMostOne (dict : String → Option Nat) (st : MMDState) : Prop :=
  ∀ i j, mmdControlled dict i → mmdControlled dict j →
    st.influences.getD i 0 ≠ 0 → st.influences.getD j 0 ≠ 0 → i = j

/-! ## Theorems for the claims -/

/-- A controller state with a registered target, mid-playback. -/
def c1State : ControllerState Nat :=
  { target := some 0, config := DEFAULT_CONFIG,
    queue := [⟨.A, 7/10, 80⟩], isPlaying := true, hasTimer := true,
    lastChunkTime := 0 }

/-- C1 (amended): for every prior controller state with a registered
target, `setTarget(null)` stops playback, clears the timer, empties the
queue and clears the target, but makes no call at all on the previous
target — in particular it does not invoke `resetMouth()` on it, because
`this.target` is overwritten with `null` before `stop()` runs, and `stop`
reads the already-cleared `this.target`.  Totality of `setTargetOp` is the
never-throws part. -/
theorem claim_C1_setTarget_null (T : Type) (s : ControllerState T) (t : T)
    (h : s.target = some t) :
    (setTargetOp s none).1.queue = [] ∧
    (setTargetOp s none).1.isPlaying = false ∧
    (setTargetOp s none).1.hasTimer = false ∧
    (setTargetOp s none).1.target = none ∧
    (setTargetOp s none).2 = [] := by
  simp [setTargetOp, stopOp]

/-- C1 counterexample: from a state whose registered target is `0`,
`setTarget(null)` emits no `resetMouth` call on that target, contradicting
the claim that the previous target's mouth is reset. -/
theorem claim_C1_counterexample :
    c1State.target = some 0 ∧
    ¬ (0, TargetCall.resetMouth) ∈ (setTargetOp c1State none).2 := by
  decide

/-- C1 witness: the amended theorem applied to the concrete state
`c1State`. -/
theorem claim_C1_witness :
    (setTargetOp c1State none).1.queue = [] ∧
    (setTargetOp c1State none).1.isPlaying = false ∧
    (setTargetOp c1State none).1.hasTimer = false ∧
    (setTargetOp c1State none).1.target = none ∧
    (setTargetOp c1State none).2 = [] :=
  claim_C1_setTarget_null Nat c1State 0 rfl

/-- C2 (amended): each of the six paths resolves to exactly one factory of
the default registry, but a `.glb` path resolves to the VRM factory
regardless of whether the file content embeds VRM extension markers —
dispatch inspects only the file extension, never the content. -/
theorem claim_C2_registry_dispatch :
    (∀ m : Bool, resolveFactory ⟨"model.vrm", m⟩ = some FactoryKind.vrm) ∧
    (∀ m : Bool, resolveFactory ⟨"model.glb", m⟩ = some FactoryKind.vrm) ∧
    (∀ m : Bool, resolveFactory ⟨"model.gltf", m⟩ = some FactoryKind.gltf) ∧
    (∀ m : Bool, resolveFactory ⟨"avatar.fbx", m⟩ = some FactoryKind.fbx) ∧
    (∀ m : Bool, resolveFactory ⟨"char.pmx", m⟩ = some FactoryKind.mmd) ∧
    (∀ m : Bool, resolveFactory ⟨"scene.model3.json", m⟩ = some FactoryKind.live2d) := by
  decide

/-- C2 counterexample: a `.glb` file without VRM extension markers still
resolves to the VRM factory, not to the generic glTF factory as the claim
states. -/
theorem claim_C2_counterexample :
    resolveFactory ⟨"model.glb", false⟩ = some FactoryKind.vrm ∧
    resolveFactory ⟨"model.glb", false⟩ ≠ some FactoryKind.gltf := by
  decide

/-- C4: with a non-empty phoneme array, `phonemesToFrames` yields one frame
per phoneme, every frame's duration is
`max(charDuration, textLength * charDuration / |phonemes|)`, vocalic
phonemes get the configured speaking weight, and `N`/`closed` phonemes get
weight `0.1`. -/
theorem claim_C4_phonemesToFrames (cfg : LipSyncConfig) (phs : List String)
    (L : Nat) (hne : phs ≠ []) :
    (phonemesToFrames cfg phs L).length = phs.length ∧
    (∀ f ∈ phonemesToFrames cfg phs L,
      f.duration = max cfg.charDuration ((L * cfg.charDuration) / (phs.length : ℚ))) ∧
    (∀ pr ∈ phs.zip (phonemesToFrames cfg phs L),
      (jsToUpper pr.1 ∈ (["A", "E", "I", "O", "U"] : List String) →
        pr.2.weight = cfg.speakingWeight) ∧
      ((jsToUpper pr.1 = "CLOSED" ∨ pr.1 = "closed" ∨ jsToUpper pr.1 = "N") →
        pr.2.weight = 1/10)) := by
  have hframe : ∀ pr ∈ phs.zip (phonemesToFrames cfg phs L),
      pr.2 = phonemeToFrame cfg
        (max cfg.charDuration ((L * cfg.charDuration) / (phs.length : ℚ))) pr.1 := by
    clear hne
    unfold phonemesToFrames
    generalize phonemeToFrame cfg
      (max cfg.charDuration ((L * cfg.charDuration) / (phs.length : ℚ))) = g
    induction phs with
    | nil => intro pr hpr; simp at hpr
    | cons a tl ih =>
      intro pr hpr
      rw [List.map_cons, List.zip_cons_cons, List.mem_cons] at hpr
      rcases hpr with rfl | hpr
      · rfl
      · exact ih pr hpr
  refine ⟨by simp [phonemesToFrames], ?_, ?_⟩
  · intro f hf
    simp only [phonemesToFrames, List.mem_map] at hf
    obtain ⟨s, _, rfl⟩ := hf
    unfold phonemeToFrame
    split
    · rfl
    · split
      · rfl
      · split
        · rfl
        · split
          · rfl
          · split
            · rfl
            · split
              · rfl
              · split <;> rfl
  · intro pr hpr
    rw [hframe pr hpr]
    unfold phonemeToFrame
    constructor
    · intro hvowel
      have h1 : ¬ (jsToUpper pr.1 = "CLOSED" ∨ pr.1 = "closed") := by
        rintro (hc | hc)
        · rw [hc] at hvowel
          simp at hvowel
        · rw [hc] at hvowel
          have hcl : jsToUpper "closed" = "CLOSED" := by decide
          rw [hcl] at hvowel
          simp at hvowel
      have h2 : ¬ jsToUpper pr.1 = "N" := by
        intro hn
        rw [hn] at hvowel
        simp at hvowel
      rw [if_neg h1, if_neg h2]
      split
      · rfl
      · split
        · rfl
        · split
          · rfl
          · split
            · rfl
            · split <;> rfl
    · rintro (hc | hc | hc)
      · rw [if_pos (Or.inl hc)]
      · rw [if_pos (Or.inr hc)]
      · by_cases h1 : jsToUpper pr.1 = "CLOSED" ∨ pr.1 = "closed"
        · rw [if_pos h1]
        · rw [if_neg h1, if_pos hc]

/-- C4 witness: the concrete scenario of the claim —
`processChunkWithPhonemes("你好", ["A","N"])` under the default config
produces frames `(A, 0.7, 80 ms)` and `(N, 0.1, 80 ms)` — together with the
theorem instantiated at that input. -/
theorem claim_C4_witness :
    phonemesToFrames DEFAULT_CONFIG ["A", "N"] 2 =
      [⟨.A, 7/10, 80⟩, ⟨.N, 1/10, 80⟩] ∧
    ((phonemesToFrames DEFAULT_CONFIG ["A", "N"] 2).length =
      (["A", "N"] : List String).length ∧
     (∀ f ∈ phonemesToFrames DEFAULT_CONFIG ["A", "N"] 2,
       f.duration = max DEFAULT_CONFIG.charDuration
         ((((2 : Nat) : ℚ) * DEFAULT_CONFIG.charDuration) /
           ((["A", "N"] : List String).length : ℚ))) ∧
     (∀ pr ∈ (["A", "N"] : List String).zip (phonemesToFrames DEFAULT_CONFIG ["A", "N"] 2),
       (jsToUpper pr.1 ∈ (["A", "E", "I", "O", "U"] : List String) →
         pr.2.weight = DEFAULT_CONFIG.speakingWeight) ∧
       ((jsToUpper pr.1 = "CLOSED" ∨ pr.1 = "closed" ∨ jsToUpper pr.1 = "N") →
         pr.2.weight = 1/10))) := by
  constructor
  · have hA : phonemeToFrame DEFAULT_CONFIG 80 "A" = ⟨.A, 7/10, 80⟩ := by
      unfold phonemeToFrame
      rw [show jsToUpper "A" = "A" from by decide]
      rw [if_neg (by decide : ¬ (("A" : String) = "CLOSED" ∨ ("A" : String) = "closed"))]
      rw [if_neg (by decide : ¬ ("A" : String) = "N")]
      rw [if_pos (rfl : ("A" : String) = "A")]
      rfl
    have hN : phonemeToFrame DEFAULT_CONFIG 80 "N" = ⟨.N, 1/10, 80⟩ := by
      unfold phonemeToFrame
      rw [show jsToUpper "N" = "N" from by decide]
      rw [if_neg (by decide : ¬ (("N" : String) = "CLOSED" ∨ ("N" : String) = "closed"))]
      rw [if_pos (rfl : ("N" : String) = "N")]
    have h80 : max DEFAULT_CONFIG.charDuration
        ((((2 : Nat) : ℚ) * DEFAULT_CONFIG.charDuration) /
          ((["A", "N"] : List String).length : ℚ)) = (80 : ℚ) := by
      norm_num [DEFAULT_CONFIG]
    unfold phonemesToFrames
    rw [h80, List.map_cons, List.map_cons, List.map_nil, hA, hN]
  · exact claim_C4_phonemesToFrames DEFAULT_CONFIG ["A", "N"] 2 (by decide)

/-- The characters whose phoneme does not depend on the `Math.random()`
draw: CJK ideographs (by their `charCodeAt(0)` value), the
punctuation/whitespace class, and letters whose lower case is an ASCII
vowel.  Every other character takes the random-vowel branch. -/
def deterministicChar (c : Char) : Bool :=
  (0x4E00 ≤ jsCharCodeAt0 c && jsCharCodeAt0 c ≤ 0x9FFF) || punctClass c ||
  (vowelOfLower c.toLower).isSome

/-- On deterministic characters `getPhonemeForChar` ignores the random
draw. -/
theorem getPhonemeForChar_deterministic (r1 r2 : Fin 5) (c : Char)
    (h : deterministicChar c = true) :
    getPhonemeForChar r1 c = getPhonemeForChar r2 c := by
  cases hv : vowelOfLower c.toLower with
  | some p => simp only [getPhonemeForChar, hv]
  | none =>
    simp only [getPhonemeForChar, hv]
    split
    · rename_i hcond
      split
      · rfl
      · rename_i hpunct
        exfalso
        simp only [deterministicChar, hv, Option.isSome_none, Bool.or_false,
          Bool.or_eq_true, Bool.and_eq_true, decide_eq_true_eq] at h
        rcases h with h | h
        · simp only [Bool.or_eq_true, decide_eq_true_eq] at hcond
          omega
        · exact hpunct h
    · rfl

/-- Random-independence of the whole frame-building loop on deterministic
text. -/
theorem textToFramesGo_deterministic (cfg : LipSyncConfig)
    (rand1 rand2 : Nat → Fin 5) :
    ∀ (text : List Char) (i : Nat) (acc : List LipFrame),
      (∀ c ∈ text, deterministicChar c = true) →
      textToFramesGo cfg rand1 text i acc = textToFramesGo cfg rand2 text i acc := by
  intro text
  induction text with
  | nil => intro i acc _; rfl
  | cons c rest ih =>
    intro i acc h
    have hc : deterministicChar c = true := h c (List.mem_cons_self c rest)
    have hrest : ∀ x ∈ rest, deterministicChar x = true :=
      fun x hx => h x (List.mem_cons_of_mem c hx)
    simp only [textToFramesGo]
    rw [getPhonemeForChar_deterministic (rand1 i) (rand2 i) c hc]
    cases acc with
    | nil => exact ih (i + 1) _ hrest
    | cons lf tl =>
      dsimp only
      by_cases he : lf.phoneme = getPhonemeForChar (rand2 i) c
      · rw [if_pos he, if_pos he]
        exact ih (i + 1) _ hrest
      · rw [if_neg he, if_neg he]
        exact ih (i + 1) _ hrest

/-- C3 (amended): `processChunk` is deterministic — two runs on the same
text with the same controller state produce the same state and calls —
provided every character of the text is in the deterministic class
(ideograph, matched punctuation/whitespace, or vowel letter).  For other
Latin letters (consonants) the heuristic picks a `Math.random()` vowel, so
the claim's "for every input string" fails. -/
theorem claim_C3_deterministic (T : Type) (now : ℚ) (rand1 rand2 : Nat → Fin 5)
    (text : List Char) (s : ControllerState T)
    (h : ∀ c ∈ text, deterministicChar c = true) :
    processChunk now rand1 text s = processChunk now rand2 text s := by
  have hframes : textToFrames s.config rand1 text = textToFrames s.config rand2 text :=
    textToFramesGo_deterministic s.config rand1 rand2 text 0 [] h
  unfold processChunk
  split
  · rfl
  · cases s.target with
    | none => rfl
    | some t =>
      dsimp only
      rw [hframes]

/-- A controller state with a registered target, idle. -/
def c3State : ControllerState Nat :=
  { initialState Nat with target := some 0 }

/-- C3 counterexample: on the single consonant `'b'` two runs of
`processChunk` that see different `Math.random()` draws enqueue frames with
different phonemes (`A` vs `E`), so `processChunk` is not deterministic for
every input string. -/
theorem claim_C3_counterexample :
    c3State.target = some 0 ∧ c3State.config.enabled = true ∧
    (processChunk 0 (fun _ => 0) ['b'] c3State).1.queue.map LipFrame.phoneme ≠
    (processChunk 0 (fun _ => 1) ['b'] c3State).1.queue.map LipFrame.phoneme := by
  decide

/-- C3 witness: the amended theorem applied to the deterministic text
`"你，a"` (ideograph, punctuation, vowel letter) and two distinct random
streams. -/
theorem claim_C3_witness :
    processChunk 0 (fun _ => 0) ['你', '，', 'a'] c3State =
    processChunk 0 (fun _ => 1) ['你', '，', 'a'] c3State :=
  claim_C3_deterministic Nat 0 (fun _ => 0) (fun _ => 1) ['你', '，', 'a']
    c3State (by decide)

/-- C7 (amended): with no registered target, `processChunk` and
`processChunkWithPhonemes` are strict no-ops and no operation emits a
target call; but `onComplete` still appends the closing frame to the queue
(it is not a no-op), and `stop` clears queue, flag and timer.  With
`config.enabled = false` both `processChunk*` operations are no-ops.  All
operations are total (never throw). -/
theorem claim_C7_no_target (T : Type) (now : ℚ) (rand : Nat → Fin 5)
    (content : List Char) (phs : Option (List String)) (s : ControllerState T) :
    (s.target = none →
      processChunk now rand content s = (s, []) ∧
      processChunkWithPhonemes now rand content phs s = (s, []) ∧
      (onComplete s).1 = { s with queue :=
        s.queue ++ [⟨.closed, 0, s.config.transitionDuration * 2⟩] } ∧
      (onComplete s).2 = [] ∧
      (stopOp s).1 = { s with isPlaying := false, hasTimer := false, queue := [] } ∧
      (stopOp s).2 = []) ∧
    (s.config.enabled = false →
      processChunk now rand content s = (s, []) ∧
      processChunkWithPhonemes now rand content phs s = (s, [])) := by
  constructor
  · intro h
    refine ⟨?_, ?_, rfl, rfl, ?_, ?_⟩
    · unfold processChunk
      split
      · rfl
      · rw [h]
    · unfold processChunkWithPhonemes
      split
      · rfl
      · rw [h]
    · simp only [stopOp, h]
    · simp only [stopOp, h]
  · intro h
    constructor
    · unfold processChunk
      rw [if_pos h]
    · unfold processChunkWithPhonemes
      rw [if_pos h]

/-- C7 counterexample: in the initial state no target is registered, yet
`onComplete` is not a no-op — it changes the controller state by appending
the closing frame to the queue. -/
theorem claim_C7_counterexample :
    (initialState Nat).target = none ∧
    (onComplete (initialState Nat)).1 ≠ initialState Nat := by
  refine ⟨rfl, fun h => ?_⟩
  have hq : (onComplete (initialState Nat)).1.queue = (initialState Nat).queue := by
    rw [h]
  simp [onComplete, initialState] at hq

/-- C7 witness: the amended theorem applied to the initial state. -/
theorem claim_C7_witness :
    processChunk 0 (fun _ => 0) ['a'] (initialState Nat) = (initialState Nat, []) ∧
    (stopOp (initialState Nat)).2 = [] :=
  ⟨((claim_C7_no_target Nat 0 (fun _ => 0) ['a'] none (initialState Nat)).1 rfl).1,
   ((claim_C7_no_target Nat 0 (fun _ => 0) ['a'] none (initialState Nat)).1 rfl).2.2.2.2.2⟩

/-- `clamp01` really lands in `[0, 1]`. -/
theorem clamp01_mem (x : ℚ) : 0 ≤ clamp01 x ∧ clamp01 x ≤ 1 :=
  ⟨le_max_left 0 _, max_le (by norm_num) (min_le_left 1 x)⟩

/-- Every `setMouth` call emitted by the consume step carries a clamped
weight. -/
theorem consumeFrame_setMouth {T : Type} (tgt : Option T) (delta : ℚ)
    (ls1 : LoopState) (t : T) (p : Phoneme) (w : ℚ)
    (h : (t, TargetCall.setMouth p w) ∈ (consumeFrame tgt delta ls1).2) :
    ∃ x, w = clamp01 x := by
  unfold consumeFrame at h
  cases hcf : ls1.currentFrame with
  | none => rw [hcf] at h; simp at h
  | some cf =>
    rw [hcf] at h
    cases tgt with
    | none => simp [applyMouthShape] at h
    | some t2 =>
      simp only [applyMouthShape, List.mem_singleton, Prod.mk.injEq,
        TargetCall.setMouth.injEq] at h
      exact ⟨_, h.2.2⟩

/-- The consume step never emits `resetMouth`. -/
theorem consumeFrame_no_reset {T : Type} (tgt : Option T) (delta : ℚ)
    (ls1 : LoopState) (t : T) :
    (t, TargetCall.resetMouth) ∉ (consumeFrame tgt delta ls1).2 := by
  intro h
  unfold consumeFrame at h
  cases hcf : ls1.currentFrame with
  | none => rw [hcf] at h; simp at h
  | some cf =>
    rw [hcf] at h
    cases tgt with
    | none => simp [applyMouthShape] at h
    | some t2 => simp [applyMouthShape] at h

/-- Every call emitted by the switch step is either one of the consume
step's calls or a `resetMouth`. -/
theorem switchFrame_calls {T : Type} (dateNow : ℚ) (s : ControllerState T)
    (ls2 : LoopState) (calls1 : List (T × TargetCall)) (e : T × TargetCall)
    (h : e ∈ (switchFrame dateNow s ls2 calls1).calls) :
    e ∈ calls1 ∨ e.2 = TargetCall.resetMouth := by
  unfold switchFrame at h
  split at h
  · cases hq : s.queue with
    | cons next restQueue => rw [hq] at h; exact Or.inl h
    | nil =>
      rw [hq] at h
      dsimp only at h
      split at h
      · rw [List.mem_append] at h
        rcases h with h | h
        · exact Or.inl h
        · cases htg : s.target with
          | none => rw [htg] at h; simp at h
          | some t =>
            rw [htg] at h
            simp only [List.mem_singleton] at h
            rw [h]
            exact Or.inr rfl
      · exact Or.inl h
  · exact Or.inl h

/-- C10: every `setMouthShape` call the playback loop makes on the target
carries a weight in `[0, 1]`: `applyMouthShape` clamps the eased weight
before the call, so even an overrun frame (progress above 1, raw eased
weight negative or above the frame weight) stays in range. -/
theorem claim_C10_weight_clamped (T : Type) (time dateNow : ℚ)
    (s : ControllerState T) (ls : LoopState) (t : T) (p : Phoneme) (w : ℚ)
    (h : (t, TargetCall.setMouth p w) ∈ (animate time dateNow s ls).calls) :
    0 ≤ w ∧ w ≤ 1 := by
  unfold animate at h
  split at h
  · simp at h
  · rcases switchFrame_calls _ _ _ _ _ h with hmem | hres
    · obtain ⟨x, rfl⟩ := consumeFrame_setMouth _ _ _ _ _ _ hmem
      exact clamp01_mem x
    · simp at hres

/-- Loop state and controller state for the C10 witness: a frame that has
overrun its duration, so the raw eased weight is negative. -/
def c10State : ControllerState Nat :=
  { target := some 0, config := DEFAULT_CONFIG, queue := [],
    isPlaying := true, hasTimer := true, lastChunkTime := 0 }

/-- Loop state for the C10 witness. -/
def c10Loop : LoopState :=
  { lastTime := 0, frameTimeRemaining := 80, currentFrame := some ⟨.A, 7/10, 80⟩ }

/-- C10 witness: at `time = 200` the frame has overrun (raw eased weight
`-49/20`), and the emitted call carries the clamped weight `0`, which the
theorem places in `[0, 1]`. -/
theorem claim_C10_witness :
    (0, TargetCall.setMouth Phoneme.A (clamp01 (easeInOut (1 - (80 - (200 - 0)) / 80) * (7/10))))
      ∈ (animate 200 0 c10State c10Loop).calls ∧
    (0 : ℚ) ≤ clamp01 (easeInOut (1 - (80 - (200 - 0)) / 80) * (7/10)) ∧
    clamp01 (easeInOut (1 - (80 - (200 - 0)) / 80) * (7/10)) ≤ 1 := by
  have hcons : consumeFrame c10State.target ((200 : ℚ) - c10Loop.lastTime)
      { lastTime := 200, frameTimeRemaining := c10Loop.frameTimeRemaining,
        currentFrame := c10Loop.currentFrame } =
      ({ lastTime := 200, frameTimeRemaining := 80 - (200 - 0),
         currentFrame := some ⟨.A, 7/10, 80⟩ },
       [(0, TargetCall.setMouth Phoneme.A
          (clamp01 (easeInOut (1 - (80 - (200 - 0)) / 80) * (7/10))))]) := rfl
  have hmem : (0, TargetCall.setMouth Phoneme.A
      (clamp01 (easeInOut (1 - (80 - (200 - 0)) / 80) * (7/10))))
      ∈ (animate 200 0 c10State c10Loop).calls := by
    show _ ∈ (animate (200 : ℚ) ((0 : ℚ)) c10State c10Loop).calls
    unfold animate
    rw [if_neg (by decide : ¬ c10State.isPlaying = false)]
    rw [hcons]
    unfold switchFrame
    rw [if_pos (by norm_num : (80 : ℚ) - (200 - 0) ≤ 0)]
    rw [show c10State.queue = [] from rfl]
    rw [if_neg (by rw [show c10State.lastChunkTime = 0 from rfl]; norm_num :
      ¬ (500 : ℚ) < 0 - c10State.lastChunkTime)]
    exact List.mem_singleton.mpr rfl
  exact ⟨hmem, claim_C10_weight_clamped Nat 200 0 c10State c10Loop 0 Phoneme.A _ hmem⟩

/-- Remaining time after the consume step: reduced by the elapsed delta
when a frame is current, untouched otherwise. -/
theorem consumeFrame_rem {T : Type} (tgt : Option T) (delta : ℚ)
    (ls1 : LoopState) :
    (consumeFrame tgt delta ls1).1.frameTimeRemaining =
      match ls1.currentFrame with
      | some _ => ls1.frameTimeRemaining - delta
      | none => ls1.frameTimeRemaining := by
  unfold consumeFrame
  cases hc : ls1.currentFrame with
  | none => rfl
  | some cf => rfl

/-- C6: when the current frame's remaining time reaches zero with an empty
queue, the tick halts the loop (unscheduled, not playing) and resets the
target's mouth exactly when more than 500 ms have elapsed since the last
chunk; with 500 ms or less elapsed it keeps the loop scheduled and playing
and does not reset the mouth. -/
theorem claim_C6_grace_window (T : Type) (t : T) (time dateNow : ℚ)
    (s : ControllerState T) (ls : LoopState)
    (hplay : s.isPlaying = true) (htgt : s.target = some t) (hq : s.queue = [])
    (hrem : (match ls.currentFrame with
             | some _ => ls.frameTimeRemaining - (time - ls.lastTime)
             | none => ls.frameTimeRemaining) ≤ (0 : ℚ)) :
    (500 < dateNow - s.lastChunkTime →
      (animate time dateNow s ls).ctrl.isPlaying = false ∧
      (animate time dateNow s ls).scheduled = false ∧
      (t, TargetCall.resetMouth) ∈ (animate time dateNow s ls).calls) ∧
    (dateNow - s.lastChunkTime ≤ 500 →
      (animate time dateNow s ls).ctrl.isPlaying = true ∧
      (animate time dateNow s ls).scheduled = true ∧
      (t, TargetCall.resetMouth) ∉ (animate time dateNow s ls).calls) := by
  have hrem2 : (consumeFrame s.target (time - ls.lastTime)
      { lastTime := time, frameTimeRemaining := ls.frameTimeRemaining,
        currentFrame := ls.currentFrame }).1.frameTimeRemaining ≤ 0 := by
    rw [consumeFrame_rem]
    exact hrem
  have hnp : ¬ s.isPlaying = false := by rw [hplay]; simp
  constructor
  · intro h5
    unfold animate switchFrame
    rw [if_neg hnp, if_pos hrem2, hq]
    dsimp only
    rw [if_pos h5, htgt]
    exact ⟨rfl, rfl, List.mem_append_right _ (List.mem_singleton.mpr rfl)⟩
  · intro h5
    unfold animate switchFrame
    rw [if_neg hnp, if_pos hrem2, hq]
    dsimp only
    rw [if_neg (not_lt.mpr h5)]
    exact ⟨hplay, rfl, consumeFrame_no_reset _ _ _ _⟩

/-- Controller state for the C6 witness: playing, empty queue, last chunk
at `t = 40`. -/
def c6State : ControllerState Nat :=
  { target := some 0, config := DEFAULT_CONFIG, queue := [],
    isPlaying := true, hasTimer := true, lastChunkTime := 40 }

/-- Loop state for the C6 witness: current frame with 50 ms left. -/
def c6Loop : LoopState :=
  { lastTime := 0, frameTimeRemaining := 50, currentFrame := some ⟨.A, 7/10, 80⟩ }

/-- C6 witness: at `time = 100, Date.now() = 600` the frame is exhausted,
the queue is empty and 560 ms > 500 ms have elapsed, so the loop halts,
stays unscheduled and resets the mouth. -/
theorem claim_C6_witness :
    (animate 100 600 c6State c6Loop).ctrl.isPlaying = false ∧
    (animate 100 600 c6State c6Loop).scheduled = false ∧
    (0, TargetCall.resetMouth) ∈ (animate 100 600 c6State c6Loop).calls :=
  (claim_C6_grace_window Nat 0 100 600 c6State c6Loop rfl rfl rfl
    (by norm_num [c6Loop])).1 (by norm_num [c6State])

/-- C9: `resetMouth` is idempotent on both adapters: a second consecutive
call leaves exactly the state (external weights / morph influences and the
internal last-shape tracking) of the first call, for every reachable or
unreachable adapter state. -/
theorem claim_C9_reset_idempotent :
    (∀ (shapeMap : Phoneme → Option String) (st : VRMState),
      vrmResetMouth shapeMap (vrmResetMouth shapeMap st) =
        vrmResetMouth shapeMap st) ∧
    (∀ st : MMDState, mmdResetMouth (mmdResetMouth st) = mmdResetMouth st) := by
  constructor
  · intro shapeMap st
    show vrmResetMouth shapeMap
        { weights := (vrmResetMouth shapeMap st).weights, lastPhoneme := .closed } =
      vrmResetMouth shapeMap st
    unfold vrmResetMouth
    simp
  · intro st
    show mmdResetMouth
        { influences := (mmdResetMouth st).influences, lastIndex := -1 } =
      mmdResetMouth st
    unfold mmdResetMouth mmdZeroLast
    simp

/-- The frame-building loop only consults the phoneme of each character:
it equals the merge loop run over the phoneme list. -/
theorem textToFramesGo_eq_mergeGo (cfg : LipSyncConfig) (rand : Nat → Fin 5) :
    ∀ (text : List Char) (i : Nat) (acc : List LipFrame),
      textToFramesGo cfg rand text i acc = mergeGo cfg (phonemeList rand text i) acc := by
  intro text
  induction text with
  | nil => intro i acc; rfl
  | cons c rest ih =>
    intro i acc
    cases acc with
    | nil =>
      simp only [textToFramesGo, phonemeList, mergeGo]
      exact ih (i + 1) _
    | cons lf tl =>
      simp only [textToFramesGo, phonemeList, mergeGo]
      split
      · exact ih (i + 1) _
      · exact ih (i + 1) _

/-- Frames already committed below the accumulator head pass through the
merge loop untouched. -/
theorem mergeGo_acc (cfg : LipSyncConfig) :
    ∀ (ps : List Phoneme) (lf : LipFrame) (tl : List LipFrame),
      mergeGo cfg ps (lf :: tl) = tl.reverse ++ mergeGo cfg ps [lf] := by
  intro ps
  induction ps with
  | nil => intro lf tl; simp [mergeGo]
  | cons p rest ih =>
    intro lf tl
    simp only [mergeGo]
    split
    · rw [ih _ tl]
    · rw [ih _ (lf :: tl), ih _ [lf]]
      simp

/-- The merge loop absorbs the leading run of phonemes equal to the open
frame's phoneme, adding one `charDuration` per absorbed character. -/
theorem mergeGo_run (cfg : LipSyncConfig) :
    ∀ (ps : List Phoneme) (p : Phoneme) (w d : ℚ),
      mergeGo cfg ps [⟨p, w, d⟩] =
        mergeGo cfg (ps.dropWhile (fun q => q = p))
          [⟨p, w, d + ((ps.takeWhile (fun q => q = p)).length : ℚ) * cfg.charDuration⟩] := by
  intro ps
  induction ps with
  | nil => intro p w d; simp
  | cons q rest ih =>
    intro p w d
    by_cases hq : q = p
    · subst hq
      rw [List.dropWhile_cons_of_pos (by simp), List.takeWhile_cons_of_pos (by simp)]
      simp only [mergeGo, if_true]
      rw [ih]
      simp only [List.length_cons]
      push_cast
      ring_nf
    · rw [List.dropWhile_cons_of_neg (by simp [hq]), List.takeWhile_cons_of_neg (by simp [hq])]
      simp

/-- When the next phoneme differs from the open frame's phoneme, the open
frame is committed and the merge loop starts afresh. -/
theorem mergeGo_push (cfg : LipSyncConfig) (q : Phoneme) (rest : List Phoneme)
    (lf : LipFrame) (h : ¬ lf.phoneme = q) :
    mergeGo cfg (q :: rest) [lf] = lf :: mergeGo cfg (q :: rest) [] := by
  simp only [mergeGo]
  rw [if_neg h]
  rw [mergeGo_acc]
  simp

/-- The merge loop computes exactly the run-length-encoded frame list. -/
theorem mergeGo_eq_runFrames (cfg : LipSyncConfig) :
    ∀ ps : List Phoneme, mergeGo cfg ps [] = runFrames cfg ps := by
  have main : ∀ (n : Nat) (ps : List Phoneme), ps.length ≤ n →
      mergeGo cfg ps [] = runFrames cfg ps := by
    intro n
    induction n with
    | zero =>
      intro ps h
      rw [List.length_eq_zero.mp (Nat.le_zero.mp h)]
      simp [mergeGo, runFrames]
    | succ n ihn =>
      intro ps h
      cases ps with
      | nil => simp [mergeGo, runFrames]
      | cons p rest =>
        have hlen : rest.length ≤ n := by
          simp only [List.length_cons] at h
          omega
        simp only [mergeGo]
        rw [mergeGo_run]
        rw [runFrames]
        cases hd : rest.dropWhile (fun q => q = p) with
        | nil =>
          simp only [mergeGo, List.reverse_cons, List.reverse_nil, List.nil_append]
          congr 1
          · simp only [LipFrame.mk.injEq, eq_self_iff_true, true_and]
            ring
          · simp [runFrames]
        | cons q rest2 =>
          have hqp : ¬ (q = p) := by
            have h0 : 0 < (rest.dropWhile (fun q2 => q2 = p)).length := by
              rw [hd]; simp
            have hnot := List.dropWhile_get_zero_not _ rest h0
            simpa [hd] using hnot
          have hlen2 : (q :: rest2).length ≤ n := by
            have hsub : (q :: rest2).length ≤ rest.length := by
              rw [← hd]
              exact (List.dropWhile_suffix _).sublist.length_le
            exact hsub.trans hlen
          rw [mergeGo_push cfg q rest2 _ (by simpa using fun he : p = q => hqp he.symm)]
          congr 1
          · simp only [LipFrame.mk.injEq, eq_self_iff_true, true_and]
            ring
          · exact ihn (q :: rest2) hlen2
  exact fun ps => main ps.length ps le_rfl

/-- C5: for every text processed without backend phonemes, the produced
frame list is exactly `runFrames` of the per-character phoneme list: one
frame per maximal run of adjacent equal phonemes, whose duration is the run
length (`1 + number of following equal phonemes`) times the configured
per-character duration. -/
theorem claim_C5_merged_runs (cfg : LipSyncConfig) (rand : Nat → Fin 5)
    (text : List Char) :
    textToFrames cfg rand text = runFrames cfg (phonemeList rand text 0) := by
  unfold textToFrames
  rw [textToFramesGo_eq_mergeGo]
  exact mergeGo_eq_runFrames cfg _

/-! ### Claim C8: mutual exclusivity of adapter mouth shapes -/

/-- Invariant carried through the VRM adapter: every controlled expression
other than the one mapped from the tracked last phoneme has weight zero. -/
def vrmInv (shapeMap : Phoneme → Option String) (st : VRMState) : Prop :=
  ∀ name, vrmControlled shapeMap name →
    shapeMap st.lastPhoneme ≠ some name → st.weights name = 0

/-- The invariant gives mutual exclusivity. -/
theorem vrmInv_atMostOne (shapeMap : Phoneme → Option String) (st : VRMState)
    (h : vrmInv shapeMap st) : vrmAtMostOne shapeMap st := by
  intro n1 n2 hc1 hc2 hw1 hw2
  by_cases e1 : shapeMap st.lastPhoneme = some n1
  · by_cases e2 : shapeMap st.lastPhoneme = some n2
    · exact Option.some.inj (e1.symm.trans e2)
    · exact absurd (h n2 hc2 e2) hw2
  · exact absurd (h n1 hc1 e1) hw1

/-- Weights after the zero-last block. -/
theorem vrmZeroLast_weights (shapeMap : Phoneme → Option String)
    (st : VRMState) (name : String) :
    (vrmZeroLast shapeMap st).weights name =
      if shapeMap st.lastPhoneme = some name then 0 else st.weights name := by
  unfold vrmZeroLast
  cases hsl : shapeMap st.lastPhoneme with
  | none => rw [if_neg (by simp)]
  | some lastShape =>
    dsimp only
    by_cases hn : name = lastShape
    · subst hn
      rw [Function.update_same, if_pos rfl]
    · rw [Function.update_noteq hn,
        if_neg (fun he => hn (Option.some.inj he).symm)]

/-- The zero-last block does not touch the tracked phoneme. -/
theorem vrmZeroLast_lastPhoneme (shapeMap : Phoneme → Option String)
    (st : VRMState) : (vrmZeroLast shapeMap st).lastPhoneme = st.lastPhoneme := by
  unfold vrmZeroLast
  cases shapeMap st.lastPhoneme <;> rfl

/-- Weights after the optional zero-last step of `setMouthShape`. -/
theorem vrmStep1_weights (shapeMap : Phoneme → Option String) (st : VRMState)
    (p : Phoneme) (name : String) :
    ((if st.lastPhoneme ≠ p ∧ st.lastPhoneme ≠ Phoneme.closed then
        vrmZeroLast shapeMap st else st)).weights name =
      if (st.lastPhoneme ≠ p ∧ st.lastPhoneme ≠ Phoneme.closed) ∧
          shapeMap st.lastPhoneme = some name then 0
      else st.weights name := by
  by_cases hcond : st.lastPhoneme ≠ p ∧ st.lastPhoneme ≠ Phoneme.closed
  · rw [if_pos hcond, vrmZeroLast_weights]
    by_cases hsl : shapeMap st.lastPhoneme = some name
    · rw [if_pos hsl, if_pos ⟨hcond, hsl⟩]
    · rw [if_neg hsl, if_neg (fun hh => hsl hh.2)]
  · rw [if_neg hcond, if_neg (fun hh => hcond hh.1)]

/-- The tracked phoneme after `setMouthShape` is the new phoneme. -/
theorem vrmSet_lastPhoneme (shapeMap : Phoneme → Option String) (p : Phoneme)
    (w : ℚ) (st : VRMState) :
    (vrmSetMouthShape shapeMap p w st).lastPhoneme = p := by
  unfold vrmSetMouthShape
  cases shapeMap p <;> rfl

/-- Weights after `setMouthShape`. -/
theorem vrmSet_weights (shapeMap : Phoneme → Option String) (p : Phoneme)
    (w : ℚ) (st : VRMState) (name : String) :
    (vrmSetMouthShape shapeMap p w st).weights name =
      if shapeMap p = some name then w
      else if (st.lastPhoneme ≠ p ∧ st.lastPhoneme ≠ Phoneme.closed) ∧
          shapeMap st.lastPhoneme = some name then 0
      else st.weights name := by
  unfold vrmSetMouthShape
  cases hsp : shapeMap p with
  | none =>
    dsimp only
    rw [if_neg (show ¬ (none : Option String) = some name by simp),
      vrmStep1_weights]
  | some shape =>
    dsimp only
    by_cases hn : name = shape
    · subst hn
      rw [Function.update_same, if_pos rfl]
    · rw [Function.update_noteq hn,
        if_neg (fun he => hn (Option.some.inj he).symm), vrmStep1_weights]

/-- The tracked phoneme after `resetMouth` is `closed`. -/
theorem vrmReset_lastPhoneme (shapeMap : Phoneme → Option String)
    (st : VRMState) : (vrmResetMouth shapeMap st).lastPhoneme = .closed := rfl

/-- Weights after `resetMouth`. -/
theorem vrmReset_weights (shapeMap : Phoneme → Option String) (st : VRMState)
    (name : String) :
    (vrmResetMouth shapeMap st).weights name =
      if st.lastPhoneme ≠ Phoneme.closed ∧ shapeMap st.lastPhoneme = some name
      then 0 else st.weights name := by
  unfold vrmResetMouth
  dsimp only
  by_cases hcond : st.lastPhoneme ≠ Phoneme.closed
  · rw [if_pos hcond, vrmZeroLast_weights]
    by_cases hsl : shapeMap st.lastPhoneme = some name
    · rw [if_pos hsl, if_pos ⟨hcond, hsl⟩]
    · rw [if_neg hsl, if_neg (fun hh => hsl hh.2)]
  · rw [if_neg hcond, if_neg (fun hh => hcond hh.1)]

/-- `setMouthShape` preserves the invariant (for shape maps that assign
nothing to `closed`, which is the case for every computed shape map). -/
theorem vrmInv_set (shapeMap : Phoneme → Option String)
    (hcl : shapeMap .closed = none) (p : Phoneme) (w : ℚ) (st : VRMState)
    (h : vrmInv shapeMap st) : vrmInv shapeMap (vrmSetMouthShape shapeMap p w st) := by
  intro name hc hne
  rw [vrmSet_lastPhoneme] at hne
  rw [vrmSet_weights, if_neg hne]
  by_cases h2 : (st.lastPhoneme ≠ p ∧ st.lastPhoneme ≠ Phoneme.closed) ∧
      shapeMap st.lastPhoneme = some name
  · rw [if_pos h2]
  · rw [if_neg h2]
    apply h name hc
    intro he
    rcases not_and_or.mp h2 with hnc | hns
    · rcases not_and_or.mp hnc with hp2 | hcl2
      · exact hne ((not_not.mp hp2) ▸ he)
      · rw [not_not.mp hcl2, hcl] at he
        cases he
    · exact hns he

/-- `resetMouth` preserves the invariant. -/
theorem vrmInv_reset (shapeMap : Phoneme → Option String)
    (hcl : shapeMap .closed = none) (st : VRMState)
    (h : vrmInv shapeMap st) : vrmInv shapeMap (vrmResetMouth shapeMap st) := by
  intro name hc _
  rw [vrmReset_weights]
  by_cases h2 : st.lastPhoneme ≠ Phoneme.closed ∧ shapeMap st.lastPhoneme = some name
  · rw [if_pos h2]
  · rw [if_neg h2]
    apply h name hc
    intro he
    rcases not_and_or.mp h2 with hns | hns
    · rw [not_not.mp hns, hcl] at he
      cases he
    · exact hns he

/-- Any sequence of adapter calls preserves the invariant. -/
theorem vrmInv_run (shapeMap : Phoneme → Option String)
    (hcl : shapeMap .closed = none) :
    ∀ (ops : List MouthOp) (st : VRMState), vrmInv shapeMap st →
      vrmInv shapeMap (vrmRun shapeMap ops st) := by
  intro ops
  induction ops with
  | nil => intro st h; exact h
  | cons op rest ih =>
    intro st h
    show vrmInv shapeMap (vrmRun shapeMap rest _)
    cases op with
    | set p w => exact ih _ (vrmInv_set shapeMap hcl p w st h)
    | reset => exact ih _ (vrmInv_reset shapeMap hcl st h)

/-- `getD` after setting the same (in-range) slot. -/
theorem rat_getD_set_self : ∀ (l : List ℚ) (j : Nat) (v : ℚ), j < l.length →
    (l.set j v).getD j 0 = v := by
  intro l
  induction l with
  | nil => intro j v h; simp at h
  | cons a tl ih =>
    intro j v h
    cases j with
    | zero => rfl
    | succ j =>
      rw [List.set_cons_succ, List.getD_cons_succ]
      exact ih j v (by simpa using h)

/-- `getD` after setting a different slot. -/
theorem rat_getD_set_ne : ∀ (l : List ℚ) (j i : Nat) (v : ℚ), i ≠ j →
    (l.set j v).getD i 0 = l.getD i 0 := by
  intro l
  induction l with
  | nil => intro j i v _; rfl
  | cons a tl ih =>
    intro j i v h
    cases j with
    | zero =>
      cases i with
      | zero => exact absurd rfl h
      | succ i => rfl
    | succ j =>
      cases i with
      | zero => rfl
      | succ i =>
        rw [List.set_cons_succ, List.getD_cons_succ, List.getD_cons_succ]
        exact ih j i v (fun he => h (by rw [he]))

/-- `getD` outside the list is the default. -/
theorem rat_getD_out : ∀ (l : List ℚ) (i : Nat), l.length ≤ i →
    l.getD i 0 = 0 := by
  intro l
  induction l with
  | nil => intro i _; rfl
  | cons a tl ih =>
    intro i h
    cases i with
    | zero => simp at h
    | succ i =>
      rw [List.getD_cons_succ]
      exact ih i (by simpa using h)

/-- Invariant carried through the MMD adapter: every controlled morph slot
other than the tracked last index holds influence zero. -/
def mmdInv (dict : String → Option Nat) (st : MMDState) : Prop :=
  ∀ i : Nat, mmdControlled dict i → (i : Int) ≠ st.lastIndex →
    st.influences.getD i 0 = 0

/-- The invariant gives mutual exclusivity. -/
theorem mmdInv_atMostOne (dict : String → Option Nat) (st : MMDState)
    (h : mmdInv dict st) : mmdAtMostOne dict st := by
  intro i j hci hcj hwi hwj
  by_cases ei : (i : Int) = st.lastIndex
  · by_cases ej : (j : Int) = st.lastIndex
    · omega
    · exact absurd (h j hcj ej) hwj
  · exact absurd (h i hci ei) hwi

/-- The zero-last block does not touch the tracked index or the length. -/
theorem mmdZeroLast_lastIndex (st : MMDState) :
    (mmdZeroLast st).lastIndex = st.lastIndex := by
  unfold mmdZeroLast
  split <;> rfl

/-- Length is preserved by the zero-last block. -/
theorem mmdZeroLast_length (st : MMDState) :
    (mmdZeroLast st).influences.length = st.influences.length := by
  unfold mmdZeroLast
  split
  · exact List.length_set _ _ _
  · rfl

/-- Influences after the zero-last block. -/
theorem mmdZeroLast_getD (st : MMDState) (i : Nat) :
    (mmdZeroLast st).influences.getD i 0 =
      if (i : Int) = st.lastIndex ∧
          (st.lastIndex ≠ -1 ∧ influDefined st st.lastIndex) then 0
      else st.influences.getD i 0 := by
  unfold mmdZeroLast
  by_cases hcond : st.lastIndex ≠ -1 ∧ influDefined st st.lastIndex
  · rw [if_pos hcond]
    dsimp only
    have hdef : 0 ≤ st.lastIndex ∧ st.lastIndex < (st.influences.length : Int) := by
      have h2 := hcond.2
      unfold influDefined at h2
      simpa using h2
    by_cases hi : (i : Int) = st.lastIndex
    · have hi2 : i = st.lastIndex.toNat := by omega
      rw [if_pos ⟨hi, hcond⟩, hi2]
      exact rat_getD_set_self _ _ _ (by omega)
    · rw [if_neg (fun hh => hi hh.1)]
      exact rat_getD_set_ne _ _ _ _ (by omega)
  · rw [if_neg hcond, if_neg (fun hh => hcond hh.2)]

/-- Outside the array, influences read as zero whenever the tracked index
is not a defined slot; helper for the undefined-slot cases. -/
theorem mmd_out_of_range (st : MMDState) (i : Nat)
    (hil : (i : Int) = st.lastIndex)
    (hnd : ¬ influDefined st st.lastIndex = true) :
    st.influences.getD i 0 = 0 := by
  apply rat_getD_out
  unfold influDefined at hnd
  simp only [Bool.and_eq_true, decide_eq_true_eq, not_and, not_lt] at hnd
  omega

/-- `setMouthShape` preserves the invariant. -/
theorem mmdInv_set (dict : String → Option Nat) (p : Phoneme) (w : ℚ)
    (st : MMDState) (h : mmdInv dict st) :
    mmdInv dict (mmdSetMouthShape dict p w st) := by
  intro i hc hne
  unfold mmdSetMouthShape at hne ⊢
  by_cases hset : findMorphIndex dict (mmdCandidates p) ≠ -1 ∧
      influDefined (mmdZeroLast st) (findMorphIndex dict (mmdCandidates p))
  · rw [if_pos hset] at hne ⊢
    dsimp only at hne ⊢
    have hdef : 0 ≤ findMorphIndex dict (mmdCandidates p) ∧
        findMorphIndex dict (mmdCandidates p) <
          ((mmdZeroLast st).influences.length : Int) := by
      have h2 := hset.2
      unfold influDefined at h2
      simpa using h2
    rw [rat_getD_set_ne _ _ _ _ (by omega : i ≠ (findMorphIndex dict (mmdCandidates p)).toNat)]
    rw [mmdZeroLast_getD]
    by_cases hz : (i : Int) = st.lastIndex ∧
        (st.lastIndex ≠ -1 ∧ influDefined st st.lastIndex)
    · rw [if_pos hz]
    · rw [if_neg hz]
      by_cases hil : (i : Int) = st.lastIndex
      · rcases not_and_or.mp hz with hc1 | hc2
        · exact absurd hil hc1
        · rcases not_and_or.mp hc2 with hm1 | hm2
          · exfalso
            rw [not_not.mp hm1] at hil
            omega
          · exact mmd_out_of_range st i hil hm2
      · exact h i hc hil
  · rw [if_neg hset] at hne ⊢
    rw [mmdZeroLast_lastIndex] at hne
    rw [mmdZeroLast_getD]
    by_cases hz : (i : Int) = st.lastIndex ∧
        (st.lastIndex ≠ -1 ∧ influDefined st st.lastIndex)
    · rw [if_pos hz]
    · rw [if_neg hz]
      exact h i hc hne

/-- `resetMouth` zeroes every controlled slot. -/
theorem mmdInv_reset (dict : String → Option Nat) (st : MMDState)
    (h : mmdInv dict st) : mmdInv dict (mmdResetMouth st) := by
  intro i hc _
  unfold mmdResetMouth
  dsimp only
  rw [mmdZeroLast_getD]
  by_cases hz : (i : Int) = st.lastIndex ∧
      (st.lastIndex ≠ -1 ∧ influDefined st st.lastIndex)
  · rw [if_pos hz]
  · rw [if_neg hz]
    by_cases hil : (i : Int) = st.lastIndex
    · rcases not_and_or.mp hz with hc1 | hc2
      · exact absurd hil hc1
      · rcases not_and_or.mp hc2 with hm1 | hm2
        · exfalso
          rw [not_not.mp hm1] at hil
          omega
        · exact mmd_out_of_range st i hil hm2
    · exact h i hc hil

/-- Any sequence of adapter calls preserves the MMD invariant. -/
theorem mmdInv_run (dict : String → Option Nat) :
    ∀ (ops : List MouthOp) (st : MMDState), mmdInv dict st →
      mmdInv dict (mmdRun dict ops st) := by
  intro ops
  induction ops with
  | nil => intro st h; exact h
  | cons op rest ih =>
    intro st h
    show mmdInv dict (mmdRun dict rest _)
    cases op with
    | set p w => exact ih _ (mmdInv_set dict p w st h)
    | reset => exact ih _ (mmdInv_reset dict st h)

/-- C8: in both adapters, starting from a freshly created adapter whose
controlled weights are all zero (`lastPhoneme = closed` / `lastIndex = -1`
are the creation values), any finite sequence of `setMouthShape` /
`resetMouth` calls leaves at most one controlled shape — one blend-shape
expression, or one morph-target slot — with nonzero weight:
`setMouthShape` zeroes the previously active shape before applying the new
one. -/
theorem claim_C8_adapter_exclusive :
    (∀ (avail : List String) (ops : List MouthOp) (w0 : String → ℚ),
      (∀ name, w0 name = 0) →
      vrmAtMostOne (shapeMapOf avail)
        (vrmRun (shapeMapOf avail) ops ⟨w0, .closed⟩)) ∧
    (∀ (dict : String → Option Nat) (ops : List MouthOp) (infl : List ℚ),
      (∀ i, infl.getD i 0 = 0) →
      mmdAtMostOne dict (mmdRun dict ops ⟨infl, -1⟩)) := by
  constructor
  · intro avail ops w0 hz
    have hcl : shapeMapOf avail .closed = none := rfl
    exact vrmInv_atMostOne _ _
      (vrmInv_run _ hcl ops _ (fun name _ _ => hz name))
  · intro dict ops infl hz
    exact mmdInv_atMostOne _ _ (mmdInv_run _ ops _ (fun i _ _ => hz i))

/-- C8 witness: the theorem applied to concrete adapters — a VRM adapter
built over expressions `["aa", "ee"]` and an MMD adapter with morph `あ` at
slot `0` of a two-slot influence array — and concrete call sequences. -/
theorem claim_C8_witness :
    vrmAtMostOne (shapeMapOf ["aa", "ee"])
      (vrmRun (shapeMapOf ["aa", "ee"])
        [.set .A (1/2), .set .E (7/10), .reset, .set .O (3/10)]
        ⟨fun _ => 0, .closed⟩) ∧
    mmdAtMostOne (fun n => if n = "あ" then some 0 else none)
      (mmdRun (fun n => if n = "あ" then some 0 else none)
        [.set .A (1/2), .set .E (7/10), .reset]
        ⟨[0, 0], -1⟩) :=
  ⟨claim_C8_adapter_exclusive.1 ["aa", "ee"] _ _ (fun _ => rfl),
   claim_C8_adapter_exclusive.2 _ _ [0, 0]
     (fun i => by rcases i with _ | _ | i <;> rfl)⟩

end Kizuna
